import Mathlib

/-!
# Verification of the NQ2 map renderer core

Shallow embedding of `src/renderer.py` (`MapRenderer` and its helpers).

Conventions of the embedding:
* Python `int` is Lean `Int`; Python list indexing (including the negative-index
  wraparound) is `pyIdx`; an expression that would raise (`IndexError`,
  `KeyError`) is modelled as `Option.none`, so every fallible source function
  returns an `Option`.
* The map grid cells are modelled as `String`s of length one (Python string
  indexing yields one-character strings which are then used as dict keys).
* The `defaultdict(list)` keyed by layer index with insertion order is modelled
  as an association list `DLayers`; `dAppend` is `layers[k].append(t)` and
  `dSize` is `len(layers)` (the number of keys).
-/

/-- The constant `TILE_SIZE` from `renderer.py`. -/
def TILE_SIZE : Int := 40

/-- The list `WATER_EDGE_CANCELERS` from `renderer.py`. -/
def WATER_EDGE_CANCELERS : List String :=
  ["wtr", "cld", "scld", "fc_1", "fc_2", "fc_3", "fc_4", "fc_6", "fc_7", "fc_8", "fc_9"]

/-- The `Map` TypedDict from `renderer.py`: default tile symbol, border tile
symbol, symbol-to-sprite mapping, and the grid of cell symbols per z-level. -/
structure Map where
  default : String
  border : String
  tiles : List (String × String)
  layers : List (List (List String))
deriving DecidableEq, Repr

/-- The `RenderTile` dataclass from `renderer.py`. -/
structure RenderTile where
  x : Int
  y : Int
  z : Int
  tile : String
  out_of_bounds : Bool := false
deriving DecidableEq, Repr

/-- Python list indexing `l[i]`: negative indices wrap once from the end;
`none` models an `IndexError`. -/
def pyIdx {α : Type} (l : List α) (i : Int) : Option α :=
  let j := if i < 0 then i + l.length else i
  if 0 ≤ j then l[j.toNat]? else none

/-- The grid lookup of layers at z, then y, then x, as a chain of Python list
indexings. -/
def pyIdx3 (layers : List (List (List String))) (z y x : Int) : Option String := do
  let lz ← pyIdx layers z
  let row ← pyIdx lz y
  pyIdx row x

/-- Models the tiles-dictionary lookup, returning `none` on a
missing key. -/
def Map.tilesGet (m : Map) (sym : String) : Option String :=
  m.tiles.lookup sym

/-- The `MapRenderer` object state after `__init__` (the JSON loading is the
caller's concern; the constructed state is the map plus the derived fields). -/
structure MapRenderer where
  map : Map
  rows : Nat
  cols : Nat
  visibility : Int
  radius : Int
  x : Int
  y : Int
  render_water_edges : Bool
deriving DecidableEq, Repr

/-- Models the constructor of `MapRenderer`: rows and cols are taken from layer 0
(an empty layer list or empty first layer raises, hence `none`),
`visibility |= 1`, `radius = visibility // 2` (Python floor division). -/
def MapRenderer.init (map : Map) (x y : Int) (visibility : Int)
    (render_water_edges : Bool) : Option MapRenderer := do
  let layer0 ← pyIdx map.layers 0
  let row0 ← pyIdx layer0 0
  let vis := Int.lor visibility 1
  some ⟨map, layer0.length, row0.length, vis, Int.fdiv vis 2, x, y, render_water_edges⟩

/-- Models the `get_tile_at` method: bounds check on `x` and `y` only, then the raw
grid lookup `layers[z][y][x]` (which can raise for a `z` outside the layer
range — modelled by `none`). -/
def MapRenderer.get_tile_at (r : MapRenderer) (x y z : Int) : Option RenderTile :=
  if x < 0 ∨ y < 0 ∨ (r.cols : Int) ≤ x ∨ (r.rows : Int) ≤ y then
    some ⟨x, y, z, r.map.border, true⟩
  else
    (pyIdx3 r.map.layers z y x).map (fun t => ⟨x, y, z, t, false⟩)

/-- Models the `get_neighbors` method: the eight neighbor tiles in the fixed order
N, S, E, W, NW, SW, SE, NE, each via `get_tile_at` at the same `z`. -/
def MapRenderer.get_neighbors (r : MapRenderer) (x y z : Int) : Option (List RenderTile) := do
  let n ← r.get_tile_at x (y - 1) z
  let s ← r.get_tile_at x (y + 1) z
  let e ← r.get_tile_at (x + 1) y z
  let w ← r.get_tile_at (x - 1) y z
  let nw ← r.get_tile_at (x - 1) (y - 1) z
  let sw ← r.get_tile_at (x - 1) (y + 1) z
  let se ← r.get_tile_at (x + 1) (y + 1) z
  let ne ← r.get_tile_at (x + 1) (y - 1) z
  some [n, s, e, w, nw, sw, se, ne]

/-- The layer collection of `tile_mapper`: `defaultdict(int -> list[RenderTile])`
as an insertion-ordered association list. -/
def DLayers : Type := List (Nat × List RenderTile)

instance : DecidableEq DLayers := by
  unfold DLayers
  infer_instance

/-- The size of the defaultdict: the number of keys present. -/
def dSize (d : DLayers) : Nat := List.length d

/-- Models the defaultdict append: append to the key's list, creating the key (at the
end of the insertion order) when absent. -/
def dAppend (d : DLayers) (k : Nat) (t : RenderTile) : DLayers :=
  match d with
  | [] => [(k, [t])]
  | (k', ts) :: rest =>
    if k' = k then (k', ts ++ [t]) :: rest else (k', ts) :: dAppend rest k t

/-- Neighbor sprite resolution
`self.map["tiles"].get(neighbor.tile) or self.map["tiles"][self.map["default"]]`:
Python `or` falls through on a falsy value (`None` or the empty string), and
`tiles[default]` raises (`none`) when the default symbol is unmapped. -/
def effectiveSprite (m : Map) (sym : String) : Option String :=
  match m.tilesGet sym with
  | some s => if s = "" then m.tilesGet m.default else some s
  | none => m.tilesGet m.default

/-- The edge-detection loop of `tile_mapper` over `neighbors[:4]` paired with
the direction codes from `water_lookup` (`n`, `s`, `e`, `w` in slot order):
an out-of-bounds cardinal neighbor resolves to `"wtr"`, and a neighbor whose
effective sprite is not in `WATER_EDGE_CANCELERS` contributes its code. -/
def edgeCodesAux (m : Map) : List (RenderTile × String) → Option (List String)
  | [] => some []
  | (neighbor, code) :: rest => do
    let tile_name ← if neighbor.out_of_bounds then some "wtr"
                    else effectiveSprite m neighbor.tile
    let tail ← edgeCodesAux m rest
    some (if tile_name ∈ WATER_EDGE_CANCELERS then tail else code :: tail)

/-- Lines 198–200 of `renderer.py`: the codes are joined into one string and
the tile becomes the water sprite name, an underscore and the joined codes
exactly when the joined string is non-empty. -/
def waterName (tile : String) (water_edges : List String) : String :=
  let edges_str := String.join water_edges
  if edges_str ≠ "" then "wtr_" ++ edges_str else tile

/-- The cap-emission loop of `tile_mapper` over `neighbors[4:]` paired with the
letters of `"acdb"`: skip out-of-bounds diagonals, resolve the rest, and for a
non-canceling sprite append a `wtrc_<letter>` tile at the current cell's pixel
position into layer index `len(layers) + 1` (evaluated at emission time). -/
def capsFoldAux (m : Map) (x_out y_out : Int) (z_index : Nat) :
    List (RenderTile × String) → DLayers → Option DLayers
  | [], d => some d
  | (nb, edge_letter) :: rest, d =>
    if nb.out_of_bounds then capsFoldAux m x_out y_out z_index rest d
    else do
      let tile_name ← effectiveSprite m nb.tile
      if tile_name ∈ WATER_EDGE_CANCELERS then capsFoldAux m x_out y_out z_index rest d
      else
        let d' := dAppend d (dSize d + 1) ⟨x_out, y_out, z_index, "wtrc_" ++ edge_letter, false⟩
        capsFoldAux m x_out y_out z_index rest d'

/-- The body of `tile_mapper`'s per-cell loop (lines 150–230 of `renderer.py`)
as a state transformer on the layer collection. -/
def processCell (r : MapRenderer) (x_origin y_origin : Int) (z_index : Nat)
    (x y : Int) (d : DLayers) : Option DLayers :=
  let out_of_bounds := x < 0 ∨ y < 0 ∨ (r.cols : Int) ≤ x ∨ (r.rows : Int) ≤ y
  let x_out := (x - x_origin) * TILE_SIZE
  let y_out := (y - y_origin) * TILE_SIZE
  if z_index = 0 ∧ out_of_bounds then
    some (dAppend d 0 ⟨x_out, y_out, 0, r.map.border, true⟩)
  else if out_of_bounds then some d
  else do
    let tile ← pyIdx3 r.map.layers z_index y x
    if tile = " " then some d
    else if r.render_water_edges = false then some d
    else if r.map.tilesGet tile = some "wtr" then do
      let neighbors ← r.get_neighbors x y z_index
      let water_edges ← edgeCodesAux r.map ((neighbors.take 4).zip ["n", "s", "e", "w"])
      let d1 ← capsFoldAux r.map x_out y_out z_index
        ((neighbors.drop 4).zip ["a", "c", "d", "b"]) d
      some (dAppend d1 z_index ⟨x_out, y_out, z_index, waterName tile water_edges, false⟩)
    else
      some (dAppend d z_index ⟨x_out, y_out, z_index, tile, false⟩)

/-- Python range over `Int`. -/
def intRange (a b : Int) : List Int :=
  (List.range (b - a).toNat).map (fun i => a + i)

/-- Models the `tile_mapper` method: choose the coordinate window (full map or the
visibility window around the viewer), then iterate z-levels outer-to-inner and
`itertools.product(range(x_origin, x_max), range(y_origin, y_max))` within
each, threading the layer collection through `processCell`. -/
def MapRenderer.tile_mapper (r : MapRenderer) (full_map : Bool) : Option DLayers :=
  let x_origin := if full_map then 0 else -r.radius + r.x
  let y_origin := if full_map then 0 else -r.radius + r.y
  let x_max := if full_map then (r.cols : Int) else r.radius + r.x + 1
  let y_max := if full_map then (r.rows : Int) else r.radius + r.y + 1
  (List.range r.map.layers.length).foldlM
    (fun d z_index =>
      (intRange x_origin x_max).foldlM
        (fun d x =>
          (intRange y_origin y_max).foldlM
            (fun d y => processCell r x_origin y_origin z_index x y d) d)
        d)
    ([] : DLayers)

/-! ## Concrete maps used as witnesses and counterexamples -/

/-- A map whose single z-level is a 1×1 grid holding one water cell. -/
def mapW : Map := ⟨"w", "w", [("w", "wtr")], [[["w"]]]⟩

/-- A map whose single z-level is a 1×2 grid: a water cell next to a land
cell (`l` maps to the sprite `lnd`, which is not edge-canceling). -/
def mapC1 : Map := ⟨"l", "l", [("w", "wtr"), ("l", "lnd")], [[["w", "l"]]]⟩

/-- A map with three z-levels over a 2×2 grid: levels 0 and 1 are entirely
blank, level 2 has a water cell at the origin with land elsewhere, so the
water cell's south-east diagonal neighbor triggers a corner cap. -/
def mapC2 : Map := ⟨"l", "l", [("w", "wtr"), ("l", "lnd")],
  [[[" ", " "], [" ", " "]], [[" ", " "], [" ", " "]], [["w", "l"], ["l", "l"]]]⟩

/-- The renderer state `MapRenderer.init` produces on `mapW` with the default
parameters. -/
def rW : MapRenderer := ⟨mapW, 1, 1, 9, 4, 0, 0, true⟩

/-- The renderer state `MapRenderer.init` produces on `mapC1` with the default
parameters. -/
def rC1 : MapRenderer := ⟨mapC1, 1, 2, 9, 4, 0, 0, true⟩

/-- The renderer state `MapRenderer.init` produces on `mapC2` with the default
parameters. -/
def rC2 : MapRenderer := ⟨mapC2, 2, 2, 9, 4, 0, 0, true⟩

/-- Sanity: `rW` is exactly what the constructor produces. -/
theorem rW_init : MapRenderer.init mapW 0 0 9 true = some rW := by decide

/-- Sanity: `rC1` is exactly what the constructor produces. -/
theorem rC1_init : MapRenderer.init mapC1 0 0 9 true = some rC1 := by decide

/-- Sanity: `rC2` is exactly what the constructor produces. -/
theorem rC2_init : MapRenderer.init mapC2 0 0 9 true = some rC2 := by decide

/-! ## C1 -/

/-- C1: evaluation of the code at the failing input. With
`render_water_edges = false`, `tile_mapper` emits no in-bounds tiles at all on
the 1×2 water/land map: the flag's `continue` sits before the unconditional
tile append, so the water cell does not yield a plain water tile and the land
cell's content is dropped as well, contradicting the claim that only the
edge/cap decoration is disabled. -/
theorem C1_flag_off_drops_all_tiles :
    ((MapRenderer.init mapC1 0 0 9 false).bind fun r => r.tile_mapper true) =
      some [] := by decide

/-! ## C2 -/

/-- C2: evaluation of the code at the failing input. On `mapC2` (z-levels 0
and 1 blank, water at the origin of z-level 2), the single emitted corner cap
`wtrc_d` is placed into layer index 1 while z-level 2's main content — in
particular the triggering water tile `wtr_se` at the same pixel position — is
placed into layer index 2, so the cap composites strictly *before* its
triggering z-level's main content, contradicting the claimed invariant. -/
theorem C2_cap_layer_below_main_content :
    ((MapRenderer.init mapC2 0 0 9 true).bind fun r => r.tile_mapper true) =
      some [(1, [⟨0, 0, 2, "wtrc_d", false⟩]),
            (2, [⟨0, 0, 2, "wtr_se", false⟩, ⟨0, 40, 2, "l", false⟩,
                 ⟨40, 0, 2, "l", false⟩, ⟨40, 40, 2, "l", false⟩])] := by decide

/-! ## C3 -/

/-- C3 counterexample: on the one-z-level map `mapW`, the in-bounds call
`get_tile_at(x=0, y=0, z=1)` raises an `IndexError` (modelled as `none`): `z`
is not bounds-checked, so bounds checking on `x` and `y` is *not* the only
gate and the call does not return a result. -/
theorem C3_counterexample :
    ((MapRenderer.init mapW 0 0 9 true).map fun r => r.get_tile_at 0 0 1) =
      some none := by decide

/-! ## C4 -/

/-- C4 counterexample: constructing the renderer on `mapW` with
`visibility = 0` (less than 1) raises nothing — there is no
`ConfigurationError` anywhere in the code — and the windowed render still
produces tile output (visibility is silently coerced to 1 by `|= 1`, giving a
1×1 window containing the water cell). -/
theorem C4_counterexample :
    ((MapRenderer.init mapW 0 0 0 true).bind fun r => r.tile_mapper false) =
      some [(0, [⟨0, 0, 0, "w", false⟩])] := by decide

/-! ## C5 -/

/-- C5: for every `(x, y, z)`, if `x < 0 ∨ y < 0 ∨ x ≥ cols ∨ y ≥ rows` then
`get_tile_at` returns the border category with the out-of-bounds flag `true`
(regardless of how far outside bounds, and without consulting `z`); otherwise
it returns the literal grid symbol `layers[z][y][x]` (whenever that Python
index is defined) with the flag `false`. -/
theorem C5_grid_accessor (r : MapRenderer) (x y z : Int) :
    ((x < 0 ∨ y < 0 ∨ (r.cols : Int) ≤ x ∨ (r.rows : Int) ≤ y) →
      r.get_tile_at x y z = some ⟨x, y, z, r.map.border, true⟩) ∧
    (¬(x < 0 ∨ y < 0 ∨ (r.cols : Int) ≤ x ∨ (r.rows : Int) ≤ y) →
      ∀ sym, pyIdx3 r.map.layers z y x = some sym →
        r.get_tile_at x y z = some ⟨x, y, z, sym, false⟩) := by
  constructor
  · intro h
    simp [MapRenderer.get_tile_at, h]
  · intro h sym hsym
    simp [MapRenderer.get_tile_at, h, hsym]

/-- C5 witness: both branches of the grid-accessor contract at concrete
inputs on the 1×2 map. -/
theorem C5_grid_accessor_witness :
    rC1.get_tile_at (-7) 0 0 = some ⟨-7, 0, 0, "l", true⟩ ∧
    rC1.get_tile_at 1 0 0 = some ⟨1, 0, 0, "l", false⟩ :=
  ⟨(C5_grid_accessor rC1 (-7) 0 0).1 (by decide),
   (C5_grid_accessor rC1 1 0 0).2 (by decide) "l" (by decide)⟩

/-! ## C8 -/

/-- C8: whenever `get_neighbors` returns, it returns exactly 8 tiles, in the
fixed order N, S, E, W, NW, SW, SE, NE, each one produced by the grid accessor
`get_tile_at` at the documented coordinate offset and the same `z`. -/
theorem C8_neighbor_order (r : MapRenderer) (x y z : Int) (ns : List RenderTile)
    (h : r.get_neighbors x y z = some ns) :
    ns.length = 8 ∧
    ∃ n s e w nw sw se ne,
      r.get_tile_at x (y - 1) z = some n ∧
      r.get_tile_at x (y + 1) z = some s ∧
      r.get_tile_at (x + 1) y z = some e ∧
      r.get_tile_at (x - 1) y z = some w ∧
      r.get_tile_at (x - 1) (y - 1) z = some nw ∧
      r.get_tile_at (x - 1) (y + 1) z = some sw ∧
      r.get_tile_at (x + 1) (y + 1) z = some se ∧
      r.get_tile_at (x + 1) (y - 1) z = some ne ∧
      ns = [n, s, e, w, nw, sw, se, ne] := by
  simp only [MapRenderer.get_neighbors, Option.bind_eq_bind, Option.bind_eq_some] at h
  obtain ⟨n, hn, s, hs, e, he, w, hw, nw, hnw, sw, hsw, se, hse, ne, hne, hns⟩ := h
  refine ⟨?_, n, s, e, w, nw, sw, se, ne, hn, hs, he, hw, hnw, hsw, hse, hne, ?_⟩
  · rw [← Option.some.inj hns]; rfl
  · exact (Option.some.inj hns).symm

/-- C8 witness: the neighbor contract applied at the water cell of the 1×2
map, where the east neighbor is the land cell and everything else is the
border. -/
theorem C8_neighbor_order_witness :
    ([⟨0, -1, 0, "l", true⟩, ⟨0, 1, 0, "l", true⟩, ⟨1, 0, 0, "l", false⟩,
      ⟨-1, 0, 0, "l", true⟩, ⟨-1, -1, 0, "l", true⟩, ⟨-1, 1, 0, "l", true⟩,
      ⟨1, 1, 0, "l", true⟩, ⟨1, -1, 0, "l", true⟩] : List RenderTile).length = 8 ∧
    ∃ n s e w nw sw se ne,
      rC1.get_tile_at 0 (0 - 1) 0 = some n ∧
      rC1.get_tile_at 0 (0 + 1) 0 = some s ∧
      rC1.get_tile_at (0 + 1) 0 0 = some e ∧
      rC1.get_tile_at (0 - 1) 0 0 = some w ∧
      rC1.get_tile_at (0 - 1) (0 - 1) 0 = some nw ∧
      rC1.get_tile_at (0 - 1) (0 + 1) 0 = some sw ∧
      rC1.get_tile_at (0 + 1) (0 + 1) 0 = some se ∧
      rC1.get_tile_at (0 + 1) (0 - 1) 0 = some ne ∧
      ([⟨0, -1, 0, "l", true⟩, ⟨0, 1, 0, "l", true⟩, ⟨1, 0, 0, "l", false⟩,
        ⟨-1, 0, 0, "l", true⟩, ⟨-1, -1, 0, "l", true⟩, ⟨-1, 1, 0, "l", true⟩,
        ⟨1, 1, 0, "l", true⟩, ⟨1, -1, 0, "l", true⟩] : List RenderTile) =
        [n, s, e, w, nw, sw, se, ne] :=
  C8_neighbor_order rC1 0 0 0 _ (by decide)

/-! ## C6 -/

/-- The second components of a zip form a sublist of the second input list. -/
theorem map_snd_zip_sublist {α β : Type} :
    ∀ (a : List α) (b : List β), ((a.zip b).map Prod.snd).Sublist b := by
  intro a
  induction a with
  | nil => intro b; simp
  | cons x a ih =>
    intro b
    cases b with
    | nil => simp
    | cons y b => simpa using (ih b).cons₂ y

/-- The list of accumulated edge codes is a sublist of the code column of the
neighbor/code pairing. -/
theorem edgeCodesAux_sublist (m : Map) :
    ∀ (ps : List (RenderTile × String)) (codes : List String),
      edgeCodesAux m ps = some codes → codes.Sublist (ps.map Prod.snd) := by
  intro ps
  induction ps with
  | nil =>
    intro codes h
    simp only [edgeCodesAux, Option.some.injEq] at h
    simp [← h]
  | cons p rest ih =>
    obtain ⟨nb, c⟩ := p
    intro codes h
    cases hb : nb.out_of_bounds with
    | true =>
      simp only [edgeCodesAux, hb, if_true, Option.some_bind, Option.bind_eq_bind,
        Option.bind_eq_some, Option.some.injEq] at h
      obtain ⟨tail, htail, hcodes⟩ := h
      have ht := ih tail htail
      subst hcodes
      by_cases hc : ("wtr" : String) ∈ WATER_EDGE_CANCELERS
      · simpa [hc] using ht.cons c
      · simpa [hc] using ht.cons₂ c
    | false =>
      simp only [edgeCodesAux, hb, Bool.false_eq_true, if_false, Option.bind_eq_bind,
        Option.bind_eq_some, Option.some.injEq] at h
      obtain ⟨tn, htn, tail, htail, hcodes⟩ := h
      have ht := ih tail htail
      subst hcodes
      by_cases hc : tn ∈ WATER_EDGE_CANCELERS
      · simpa [hc] using ht.cons c
      · simpa [hc] using ht.cons₂ c

/-- A non-empty sublist of the edge-code alphabet joins to a non-empty
string. -/
theorem join_ne_empty_of_codes {codes : List String}
    (h : codes.Sublist ["n", "s", "e", "w"]) (hne : codes ≠ []) :
    String.join codes ≠ "" := by
  have hmem : codes ∈ (["n", "s", "e", "w"] : List String).sublists :=
    List.mem_sublists.2 h
  fin_cases hmem <;> first | (exact absurd rfl hne) | decide

/-- C6: every successfully accumulated edge-code list over `neighbors[:4]`
paired with the codes `n`, `s`, `e`, `w` is a (possibly empty) sublist of
`[n, s, e, w]` in that fixed relative order with no duplicated letters, and
the water tile's drawn name is the plain symbol for an empty code list and
`wtr_` followed by the concatenated codes otherwise. -/
theorem C6_edge_codes (m : Map) (neighbors : List RenderTile) (codes : List String)
    (h : edgeCodesAux m ((neighbors.take 4).zip ["n", "s", "e", "w"]) = some codes) :
    codes.Sublist ["n", "s", "e", "w"] ∧ codes.Nodup ∧
    (codes = [] → ∀ tile, waterName tile codes = tile) ∧
    (codes ≠ [] → ∀ tile, waterName tile codes = "wtr_" ++ String.join codes) := by
  have hsub : codes.Sublist ["n", "s", "e", "w"] :=
    (edgeCodesAux_sublist m _ codes h).trans (map_snd_zip_sublist _ _)
  refine ⟨hsub, hsub.nodup (by decide), ?_, ?_⟩
  · rintro rfl tile
    rfl
  · intro hne tile
    have hj := join_ne_empty_of_codes hsub hne
    simp [waterName, hj]

/-- C6 witness: the water cell of the 1×2 map (neighbors: border to the N, S,
W and diagonals, land to the E) accumulates exactly the code list `[e]`; the
contract's conclusions hold there. -/
theorem C6_edge_codes_witness :
    (["e"] : List String).Sublist ["n", "s", "e", "w"] ∧ (["e"] : List String).Nodup ∧
    ((["e"] : List String) = [] → ∀ tile, waterName tile ["e"] = tile) ∧
    ((["e"] : List String) ≠ [] → ∀ tile, waterName tile ["e"] = "wtr_" ++ String.join ["e"]) :=
  C6_edge_codes mapC1
    [⟨0, -1, 0, "l", true⟩, ⟨0, 1, 0, "l", true⟩, ⟨1, 0, 0, "l", false⟩,
     ⟨-1, 0, 0, "l", true⟩, ⟨-1, -1, 0, "l", true⟩, ⟨-1, 1, 0, "l", true⟩,
     ⟨1, 1, 0, "l", true⟩, ⟨1, -1, 0, "l", true⟩]
    ["e"] (by decide)

/-! ## C7 -/

/-- All tiles stored in a layer collection, in insertion order. -/
def allTiles (d : DLayers) : List RenderTile :=
  (List.map Prod.snd d).flatten

/-- Appending a tile to a layer collection adds exactly that tile, up to
permutation of the flattened tile list. -/
theorem allTiles_dAppend (d : DLayers) (k : Nat) (t : RenderTile) :
    (allTiles (dAppend d k t)).Perm (allTiles d ++ [t]) := by
  induction d with
  | nil => simp [dAppend, allTiles]
  | cons p rest ih =>
    obtain ⟨k', ts⟩ := p
    by_cases hk : k' = k
    · simp only [dAppend, hk, if_true, allTiles, List.map_cons, List.flatten_cons]
      rw [List.append_assoc, List.append_assoc]
      exact List.Perm.append_left ts List.perm_append_comm
    · simp only [dAppend, hk, if_false, allTiles, List.map_cons, List.flatten_cons]
      rw [List.append_assoc]
      exact List.Perm.append_left ts ih

/-- The list of cap letters the cap-emission loop actually emits, in emission
order: diagonal slots that are in bounds and resolve to a non-canceling
sprite contribute their letter. -/
def capLetters (m : Map) : List (RenderTile × String) → Option (List String)
  | [] => some []
  | (nb, l) :: rest =>
    if nb.out_of_bounds then capLetters m rest
    else do
      let nm ← effectiveSprite m nb.tile
      let tail ← capLetters m rest
      some (if nm ∈ WATER_EDGE_CANCELERS then tail else l :: tail)

/-- The cap-emission loop adds to the layer collection exactly the tiles
`wtrc_<letter>` at the cell's pixel position, one per emitted letter, up to
permutation of the flattened tile list. -/
theorem capsFoldAux_perm (m : Map) (x_out y_out : Int) (z_index : Nat) :
    ∀ (ps : List (RenderTile × String)) (d d' : DLayers),
      capsFoldAux m x_out y_out z_index ps d = some d' →
      ∃ ls, capLetters m ps = some ls ∧
        (allTiles d').Perm (allTiles d ++
          ls.map fun l => ⟨x_out, y_out, (z_index : Int), "wtrc_" ++ l, false⟩) := by
  intro ps
  induction ps with
  | nil =>
    intro d d' h
    simp only [capsFoldAux, Option.some.injEq] at h
    exact ⟨[], rfl, by simp [← h]⟩
  | cons p rest ih =>
    obtain ⟨nb, l⟩ := p
    intro d d' h
    cases hb : nb.out_of_bounds with
    | true =>
      simp only [capsFoldAux, hb, if_true] at h
      obtain ⟨ls, hls, hperm⟩ := ih d d' h
      exact ⟨ls, by simp [capLetters, hb, hls], hperm⟩
    | false =>
      simp only [capsFoldAux, hb, Bool.false_eq_true, if_false] at h
      cases hnm : effectiveSprite m nb.tile with
      | none => rw [hnm] at h; simp at h
      | some nm =>
        rw [hnm] at h
        simp only [Option.bind_eq_bind, Option.some_bind] at h
        by_cases hc : nm ∈ WATER_EDGE_CANCELERS
        · rw [if_pos hc] at h
          obtain ⟨ls, hls, hperm⟩ := ih d d' h
          refine ⟨ls, ?_, hperm⟩
          simp [capLetters, hb, hnm, hls, hc]
        · rw [if_neg hc] at h
          obtain ⟨ls, hls, hperm⟩ :=
            ih (dAppend d (dSize d + 1) ⟨x_out, y_out, z_index, "wtrc_" ++ l, false⟩) d' h
          refine ⟨l :: ls, by simp [capLetters, hb, hnm, hls, hc], ?_⟩
          refine hperm.trans ?_
          refine (List.Perm.append_right _ (allTiles_dAppend d _ _)).trans ?_
          rw [List.append_assoc]
          rfl

/-- Letters emitted by the cap loop come from in-bounds slots whose effective
sprite is not edge-canceling, each tagged with that slot's letter. -/
theorem capLetters_mem (m : Map) :
    ∀ (ps : List (RenderTile × String)) (ls : List String),
      capLetters m ps = some ls →
      ∀ l ∈ ls, ∃ nb, (nb, l) ∈ ps ∧ nb.out_of_bounds = false ∧
        ∃ nm, effectiveSprite m nb.tile = some nm ∧ nm ∉ WATER_EDGE_CANCELERS := by
  intro ps
  induction ps with
  | nil =>
    intro ls h
    simp only [capLetters, Option.some.injEq] at h
    simp [← h]
  | cons p rest ih =>
    obtain ⟨nb, l0⟩ := p
    intro ls h l hl
    cases hb : nb.out_of_bounds with
    | true =>
      simp only [capLetters, hb, if_true] at h
      obtain ⟨nb', hmem, hrest⟩ := ih ls h l hl
      exact ⟨nb', List.mem_cons_of_mem _ hmem, hrest⟩
    | false =>
      simp only [capLetters, hb, Bool.false_eq_true, if_false] at h
      cases hnm : effectiveSprite m nb.tile with
      | none => rw [hnm] at h; simp at h
      | some nm =>
        rw [hnm] at h
        simp only [Option.some_bind, Option.bind_eq_bind, Option.bind_eq_some,
          Option.some.injEq] at h
        obtain ⟨tail, htail, hls⟩ := h
        subst hls
        by_cases hc : nm ∈ WATER_EDGE_CANCELERS
        · rw [if_pos hc] at hl
          obtain ⟨nb', hmem, hrest⟩ := ih tail htail l hl
          exact ⟨nb', List.mem_cons_of_mem _ hmem, hrest⟩
        · rw [if_neg hc] at hl
          rcases List.mem_cons.1 hl with rfl | hl'
          · exact ⟨nb, List.mem_cons_self _ _, hb, nm, hnm, hc⟩
          · obtain ⟨nb', hmem, hrest⟩ := ih tail htail l hl'
            exact ⟨nb', List.mem_cons_of_mem _ hmem, hrest⟩

/-- If every slot is out of bounds or resolves to an edge-canceling sprite,
the cap loop leaves the layer collection unchanged. -/
theorem capsFoldAux_skip (m : Map) (x_out y_out : Int) (z_index : Nat) :
    ∀ (ps : List (RenderTile × String)) (d : DLayers),
      (∀ p ∈ ps, p.1.out_of_bounds = true ∨
        ∃ nm, effectiveSprite m p.1.tile = some nm ∧ nm ∈ WATER_EDGE_CANCELERS) →
      capsFoldAux m x_out y_out z_index ps d = some d := by
  intro ps
  induction ps with
  | nil => intro d _; rfl
  | cons p rest ih =>
    obtain ⟨nb, l⟩ := p
    intro d hall
    have ihrest := ih d (fun p hp => hall p (List.mem_cons_of_mem _ hp))
    rcases hall (nb, l) (List.mem_cons_self _ _) with hb | ⟨nm, hnm, hc⟩
    · have hb2 : nb.out_of_bounds = true := hb
      simp only [capsFoldAux, hb2, if_true]
      exact ihrest
    · have hnm2 : effectiveSprite m nb.tile = some nm := hnm
      cases hb : nb.out_of_bounds with
      | true =>
        simp only [capsFoldAux, hb, if_true]
        exact ihrest
      | false =>
        simp only [capsFoldAux, hb, Bool.false_eq_true, if_false, hnm2,
          Option.bind_eq_bind, Option.some_bind, if_pos hc]
        exact ihrest

/-- C7: every cap tile the cap-emission loop adds for a water cell comes from
an in-bounds diagonal neighbor whose effective sprite is not edge-canceling,
under the exact direction-to-letter mapping NW→a, SW→c, SE→d, NE→b, is named
`wtrc_<letter>` and sits at the triggering cell's own pixel coordinates; an
out-of-bounds diagonal never produces a cap, and if every diagonal slot is
out of bounds or edge-canceling the layer collection is unchanged (zero cap
tiles). -/
theorem C7_cap_tiles (r : MapRenderer) (x y : Int) (x_out y_out : Int) (z_index : Nat)
    (ns : List RenderTile) (d d' : DLayers)
    (hns : r.get_neighbors x y (z_index : Int) = some ns)
    (hcaps : capsFoldAux r.map x_out y_out z_index
      ((ns.drop 4).zip ["a", "c", "d", "b"]) d = some d') :
    (∀ t ∈ allTiles d', t ∈ allTiles d ∨
      ∃ px py letter, ((px, py), letter) ∈
          [((x - 1, y - 1), "a"), ((x - 1, y + 1), "c"),
           ((x + 1, y + 1), "d"), ((x + 1, y - 1), "b")] ∧
        ∃ nb, r.get_tile_at px py (z_index : Int) = some nb ∧ nb.out_of_bounds = false ∧
          (∃ nm, effectiveSprite r.map nb.tile = some nm ∧ nm ∉ WATER_EDGE_CANCELERS) ∧
          t = ⟨x_out, y_out, (z_index : Int), "wtrc_" ++ letter, false⟩) ∧
    ((∀ p ∈ (ns.drop 4).zip ["a", "c", "d", "b"], p.1.out_of_bounds = true ∨
        ∃ nm, effectiveSprite r.map p.1.tile = some nm ∧ nm ∈ WATER_EDGE_CANCELERS) →
      d' = d) := by
  simp only [MapRenderer.get_neighbors, Option.bind_eq_bind, Option.bind_eq_some] at hns
  obtain ⟨n, hn, s, hs, e, he, w, hw, nw, hnw, sw, hsw, se, hse, ne, hne, hns'⟩ := hns
  have hdrop : ns.drop 4 = [nw, sw, se, ne] := by
    rw [← Option.some.inj hns']; rfl
  constructor
  · intro t ht
    obtain ⟨ls, hls, hperm⟩ := capsFoldAux_perm r.map x_out y_out z_index _ d d' hcaps
    rcases List.mem_append.1 (hperm.mem_iff.1 ht) with hd | hcap
    · exact Or.inl hd
    · right
      obtain ⟨l, hlls, hteq⟩ := List.mem_map.1 hcap
      obtain ⟨nb, hmem, hoob, nm, hnm, hnc⟩ := capLetters_mem r.map _ ls hls l hlls
      rw [hdrop] at hmem
      simp only [List.zip_cons_cons, List.zip_nil_right, List.mem_cons,
        List.not_mem_nil, or_false, Prod.mk.injEq] at hmem
      rcases hmem with ⟨rfl, rfl⟩ | ⟨rfl, rfl⟩ | ⟨rfl, rfl⟩ | ⟨rfl, rfl⟩
      · exact ⟨x - 1, y - 1, "a", by simp, nb, hnw, hoob, ⟨nm, hnm, hnc⟩, hteq.symm⟩
      · exact ⟨x - 1, y + 1, "c", by simp, nb, hsw, hoob, ⟨nm, hnm, hnc⟩, hteq.symm⟩
      · exact ⟨x + 1, y + 1, "d", by simp, nb, hse, hoob, ⟨nm, hnm, hnc⟩, hteq.symm⟩
      · exact ⟨x + 1, y - 1, "b", by simp, nb, hne, hoob, ⟨nm, hnm, hnc⟩, hteq.symm⟩
  · intro hall
    have := capsFoldAux_skip r.map x_out y_out z_index _ d hall
    rw [this] at hcaps
    exact (Option.some.inj hcaps).symm

/-- C7 witness: at the water cell of `mapC2`'s z-level 2, the cap loop emits
exactly the SE cap `wtrc_d`, and the cap-tile contract's conclusion holds at
that concrete input. -/
theorem C7_cap_tiles_witness :
    (∀ t ∈ allTiles [(1, [⟨0, 0, 2, "wtrc_d", false⟩])],
      t ∈ allTiles ([] : DLayers) ∨
      ∃ px py letter, ((px, py), letter) ∈
          [(((0 : Int) - 1, (0 : Int) - 1), "a"), ((0 - 1, 0 + 1), "c"),
           ((0 + 1, 0 + 1), "d"), ((0 + 1, 0 - 1), "b")] ∧
        ∃ nb, rC2.get_tile_at px py ((2 : Nat) : Int) = some nb ∧
          nb.out_of_bounds = false ∧
          (∃ nm, effectiveSprite rC2.map nb.tile = some nm ∧
            nm ∉ WATER_EDGE_CANCELERS) ∧
          t = ⟨0, 0, ((2 : Nat) : Int), "wtrc_" ++ letter, false⟩) ∧
    ((∀ p ∈ (([⟨0, -1, 2, "l", true⟩, ⟨0, 1, 2, "l", false⟩, ⟨1, 0, 2, "l", false⟩,
          ⟨-1, 0, 2, "l", true⟩, ⟨-1, -1, 2, "l", true⟩, ⟨-1, 1, 2, "l", true⟩,
          ⟨1, 1, 2, "l", false⟩, ⟨1, -1, 2, "l", true⟩] : List RenderTile).drop 4).zip
          ["a", "c", "d", "b"],
        p.1.out_of_bounds = true ∨
        ∃ nm, effectiveSprite rC2.map p.1.tile = some nm ∧
          nm ∈ WATER_EDGE_CANCELERS) →
      [(1, [(⟨0, 0, 2, "wtrc_d", false⟩ : RenderTile)])] = ([] : DLayers)) :=
  C7_cap_tiles rC2 0 0 0 0 2
    [⟨0, -1, 2, "l", true⟩, ⟨0, 1, 2, "l", false⟩, ⟨1, 0, 2, "l", false⟩,
     ⟨-1, 0, 2, "l", true⟩, ⟨-1, -1, 2, "l", true⟩, ⟨-1, 1, 2, "l", true⟩,
     ⟨1, 1, 2, "l", false⟩, ⟨1, -1, 2, "l", true⟩]
    [] [(1, [⟨0, 0, 2, "wtrc_d", false⟩])] (by decide) (by decide)

/-- C3 helper: `l[i]?` succeeds exactly on indices below the length. -/
theorem getElem?_isSome_iff {α : Type} (l : List α) (i : Nat) :
    l[i]?.isSome = true ↔ i < l.length := by
  rw [Option.isSome_iff_exists]
  constructor
  · rintro ⟨a, ha⟩
    exact (List.getElem?_eq_some.1 ha).1
  · intro h
    exact ⟨l[i], List.getElem?_eq_some.2 ⟨h, rfl⟩⟩

/-- Python indexing succeeds exactly on the valid index range
`-len ≤ i < len`. -/
theorem pyIdx_isSome {α : Type} (l : List α) (i : Int) :
    (pyIdx l i).isSome = true ↔ -(l.length : Int) ≤ i ∧ i < (l.length : Int) := by
  by_cases hi : i < 0
  · simp only [pyIdx, hi, if_true]
    by_cases hj : 0 ≤ i + (l.length : Int)
    · rw [if_pos hj, getElem?_isSome_iff]
      omega
    · rw [if_neg hj]
      simp only [Option.isSome_none, Bool.false_eq_true, false_iff]
      omega
  · simp only [pyIdx, hi, if_false]
    rw [if_pos (by omega), getElem?_isSome_iff]
    omega

/-- A successful Python index returns an element of the list. -/
theorem pyIdx_mem {α : Type} {l : List α} {i : Int} {a : α}
    (h : pyIdx l i = some a) : a ∈ l := by
  by_cases hi : i < 0
  · simp only [pyIdx, hi, if_true] at h
    by_cases hj : 0 ≤ i + (l.length : Int)
    · rw [if_pos hj] at h
      exact List.getElem?_mem h
    · rw [if_neg hj] at h
      exact absurd h (by simp)
  · simp only [pyIdx, hi, if_false] at h
    rw [if_pos (by omega)] at h
    exact List.getElem?_mem h

/-- Python indexing at a non-negative index is plain list indexing. -/
theorem pyIdx_nonneg {α : Type} (l : List α) {i : Int} (h : 0 ≤ i) :
    pyIdx l i = l[i.toNat]? := by
  simp only [pyIdx, not_lt.2 h, if_false, if_pos h]

/-- Rectangularity of the map relative to the renderer's cached dimensions:
every z-level has `rows` rows, each of length `cols`. -/
def WellFormed (r : MapRenderer) : Prop :=
  ∀ l ∈ r.map.layers, List.length l = r.rows ∧ ∀ row ∈ l, row.length = r.cols

instance (r : MapRenderer) : Decidable (WellFormed r) := by
  unfold WellFormed
  infer_instance

/-- C3 (amended): on a rectangular map, `get_tile_at` returns without raising
exactly when `(x, y)` is out of bounds (any `z`, however large or negative) or
`z` is a valid Python layer index (`-numLayers ≤ z < numLayers`); for an
in-bounds `(x, y)` with `z` outside that range it raises `IndexError`
(modelled by `none`) — bounds checking gates only `x` and `y`, not `z`. -/
theorem C3_get_tile_at_total_iff (r : MapRenderer) (hwf : WellFormed r) (x y z : Int) :
    (r.get_tile_at x y z).isSome = true ↔
      ((x < 0 ∨ y < 0 ∨ (r.cols : Int) ≤ x ∨ (r.rows : Int) ≤ y) ∨
        (-(r.map.layers.length : Int) ≤ z ∧ z < (r.map.layers.length : Int))) := by
  by_cases hoob : x < 0 ∨ y < 0 ∨ (r.cols : Int) ≤ x ∨ (r.rows : Int) ≤ y
  · simp [MapRenderer.get_tile_at, hoob]
  · push_neg at hoob
    obtain ⟨hx, hy, hxc, hyr⟩ := hoob
    have hoob' : ¬(x < 0 ∨ y < 0 ∨ (r.cols : Int) ≤ x ∨ (r.rows : Int) ≤ y) := by
      push_neg
      exact ⟨hx, hy, hxc, hyr⟩
    simp only [MapRenderer.get_tile_at, hoob', if_false, Option.isSome_map]
    cases hz : pyIdx r.map.layers z with
    | none =>
      have hznot : ¬(-(r.map.layers.length : Int) ≤ z ∧ z < (r.map.layers.length : Int)) := by
        intro hb
        have := (pyIdx_isSome r.map.layers z).2 hb
        rw [hz] at this
        exact absurd this (by simp)
      simp only [pyIdx3, Option.bind_eq_bind, hz, Option.none_bind, Option.map_none',
        Option.isSome_none, Bool.false_eq_true, false_iff]
      intro hcon
      rcases hcon with hcon | hcon
      · exact hcon.elim
      · exact hznot hcon
    | some lz =>
      obtain ⟨hlen, hrows⟩ := hwf lz (pyIdx_mem hz)
      obtain ⟨row, hrow⟩ : ∃ row, pyIdx lz y = some row := by
        rw [pyIdx_nonneg lz hy]
        exact Option.isSome_iff_exists.1 ((getElem?_isSome_iff _ _).2 (by omega))
      obtain ⟨sym, hsym⟩ : ∃ sym, pyIdx row x = some sym := by
        have hrowlen := hrows row (pyIdx_mem hrow)
        rw [pyIdx_nonneg row hx]
        exact Option.isSome_iff_exists.1 ((getElem?_isSome_iff _ _).2 (by omega))
      simp only [pyIdx3, Option.bind_eq_bind, hz, Option.some_bind, hrow, hsym,
        Option.map_some', Option.isSome_some, true_iff]
      right
      exact (pyIdx_isSome r.map.layers z).1 (by rw [hz]; rfl)

/-- C3 (amended) witness: the contract applied on the 1×1 water map at the
in-bounds cell with the valid layer index 0. -/
theorem C3_get_tile_at_total_iff_witness :
    (rW.get_tile_at 0 0 0).isSome = true ↔
      (((0 : Int) < 0 ∨ (0 : Int) < 0 ∨ (rW.cols : Int) ≤ 0 ∨ (rW.rows : Int) ≤ 0) ∨
        (-(rW.map.layers.length : Int) ≤ 0 ∧ (0 : Int) < (rW.map.layers.length : Int))) :=
  C3_get_tile_at_total_iff rW (by decide) 0 0 0

/-- C4 (amended): construction never raises for any visibility below 1 (or any
viewer coordinates): there is no validation and no `ConfigurationError`; the
constructor succeeds whenever the map's first layer and first row exist,
merely coercing the visibility to an odd value with a bitwise OR. -/
theorem C4_init_no_validation (m : Map) (x y visibility : Int) (rwe : Bool)
    (layer0 : List (List String)) (row0 : List String)
    (h0 : pyIdx m.layers 0 = some layer0) (h1 : pyIdx layer0 0 = some row0)
    (_hvis : visibility < 1) :
    MapRenderer.init m x y visibility rwe =
      some ⟨m, layer0.length, row0.length, Int.lor visibility 1,
            Int.fdiv (Int.lor visibility 1) 2, x, y, rwe⟩ := by
  simp [MapRenderer.init, h0, h1]

/-- C4 (amended) witness: constructing with `visibility = 0` on the 1×1 water
map succeeds, yielding effective visibility 1 and radius 0. -/
theorem C4_init_no_validation_witness :
    MapRenderer.init mapW 0 0 0 true =
      some ⟨mapW, List.length [["w"]], List.length ["w"], Int.lor 0 1,
            Int.fdiv (Int.lor 0 1) 2, 0, 0, true⟩ :=
  C4_init_no_validation mapW 0 0 0 true [["w"]] ["w"] (by decide) (by decide) (by decide)

/-! ## C10 -/

/-- C10: on a renderer whose grid is 1×1, rendering the single cell (z-level
0) when it holds a non-blank symbol mapped to the water sprite, with edge
rendering enabled, appends exactly the plain symbol tile (no `wtr_` suffix:
all four cardinal out-of-bounds neighbors count as water) and adds zero cap
tiles (all four diagonal out-of-bounds neighbors are skipped), for any window
origin and any prior layer collection. -/
theorem C10_one_by_one_island (r : MapRenderer) (s : String) (x_origin y_origin : Int)
    (d : DLayers)
    (hrows : r.rows = 1) (hcols : r.cols = 1)
    (hcell : pyIdx3 r.map.layers 0 0 0 = some s)
    (hs : s ≠ " ") (hw : r.map.tilesGet s = some "wtr")
    (hrwe : r.render_water_edges = true) :
    processCell r x_origin y_origin 0 0 0 d =
      some (dAppend d 0
        ⟨(0 - x_origin) * TILE_SIZE, (0 - y_origin) * TILE_SIZE, 0, s, false⟩) := by
  obtain ⟨m, rows, cols, vis, rad, rx, ry, rwe⟩ := r
  simp only at hrows hcols hrwe hcell hw
  subst hrows hcols hrwe
  have hN : MapRenderer.get_tile_at ⟨m, 1, 1, vis, rad, rx, ry, true⟩ 0 (0 - 1) 0 =
      some ⟨0, 0 - 1, 0, m.border, true⟩ := by
    norm_num [MapRenderer.get_tile_at]
  have hS : MapRenderer.get_tile_at ⟨m, 1, 1, vis, rad, rx, ry, true⟩ 0 (0 + 1) 0 =
      some ⟨0, 0 + 1, 0, m.border, true⟩ := by
    norm_num [MapRenderer.get_tile_at]
  have hE : MapRenderer.get_tile_at ⟨m, 1, 1, vis, rad, rx, ry, true⟩ (0 + 1) 0 0 =
      some ⟨0 + 1, 0, 0, m.border, true⟩ := by
    norm_num [MapRenderer.get_tile_at]
  have hW : MapRenderer.get_tile_at ⟨m, 1, 1, vis, rad, rx, ry, true⟩ (0 - 1) 0 0 =
      some ⟨0 - 1, 0, 0, m.border, true⟩ := by
    norm_num [MapRenderer.get_tile_at]
  have hNW : MapRenderer.get_tile_at ⟨m, 1, 1, vis, rad, rx, ry, true⟩ (0 - 1) (0 - 1) 0 =
      some ⟨0 - 1, 0 - 1, 0, m.border, true⟩ := by
    norm_num [MapRenderer.get_tile_at]
  have hSW : MapRenderer.get_tile_at ⟨m, 1, 1, vis, rad, rx, ry, true⟩ (0 - 1) (0 + 1) 0 =
      some ⟨0 - 1, 0 + 1, 0, m.border, true⟩ := by
    norm_num [MapRenderer.get_tile_at]
  have hSE : MapRenderer.get_tile_at ⟨m, 1, 1, vis, rad, rx, ry, true⟩ (0 + 1) (0 + 1) 0 =
      some ⟨0 + 1, 0 + 1, 0, m.border, true⟩ := by
    norm_num [MapRenderer.get_tile_at]
  have hNE : MapRenderer.get_tile_at ⟨m, 1, 1, vis, rad, rx, ry, true⟩ (0 + 1) (0 - 1) 0 =
      some ⟨0 + 1, 0 - 1, 0, m.border, true⟩ := by
    norm_num [MapRenderer.get_tile_at]
  have hns : MapRenderer.get_neighbors ⟨m, 1, 1, vis, rad, rx, ry, true⟩ 0 0 0 =
      some [⟨0, 0 - 1, 0, m.border, true⟩, ⟨0, 0 + 1, 0, m.border, true⟩,
            ⟨0 + 1, 0, 0, m.border, true⟩, ⟨0 - 1, 0, 0, m.border, true⟩,
            ⟨0 - 1, 0 - 1, 0, m.border, true⟩, ⟨0 - 1, 0 + 1, 0, m.border, true⟩,
            ⟨0 + 1, 0 + 1, 0, m.border, true⟩, ⟨0 + 1, 0 - 1, 0, m.border, true⟩] := by
    simp only [MapRenderer.get_neighbors, hN, hS, hE, hW, hNW, hSW, hSE, hNE,
      Option.bind_eq_bind, Option.some_bind]
  have hoob : ¬((0 : Int) < 0 ∨ (0 : Int) < 0 ∨ ((1 : Nat) : Int) ≤ 0 ∨ ((1 : Nat) : Int) ≤ 0) := by
    norm_num
  simp only [processCell, hoob, if_false, and_false, if_neg (by norm_num : ¬(0 = 0 ∧ False)),
    Option.bind_eq_bind, Option.some_bind, if_neg hs, hw, hns, waterName]
  norm_num
  rw [hcell]
  simp only [Option.some_bind, if_neg hs, hw, eq_self_iff_true, if_true, hns]
  rfl

/-- C10 witness: the 1×1 island contract applied to the concrete renderer over
`mapW`, emitting exactly the plain water-symbol tile into layer 0. -/
theorem C10_one_by_one_island_witness :
    processCell ⟨mapW, 1, 1, 9, 4, 0, 0, true⟩ 0 0 0 0 0 [] =
      some (dAppend [] 0 ⟨(0 - 0) * TILE_SIZE, (0 - 0) * TILE_SIZE, 0, "w", false⟩) :=
  C10_one_by_one_island ⟨mapW, 1, 1, 9, 4, 0, 0, true⟩ "w" 0 0 []
    rfl rfl (by decide) (by decide) (by decide) rfl

/-! ## C9 -/

/-- Success of the cap loop does not depend on the layer collection being
threaded through it: it succeeds exactly when the emitted letter list does. -/
theorem capsFoldAux_isSome (m : Map) (x_out y_out : Int) (z_index : Nat) :
    ∀ (ps : List (RenderTile × String)) (d : DLayers),
      (capsFoldAux m x_out y_out z_index ps d).isSome = (capLetters m ps).isSome := by
  intro ps
  induction ps with
  | nil => intro d; rfl
  | cons p rest ih =>
    obtain ⟨nb, l⟩ := p
    intro d
    cases hb : nb.out_of_bounds with
    | true => simp only [capsFoldAux, capLetters, hb, if_true, ih]
    | false =>
      cases hnm : effectiveSprite m nb.tile with
      | none =>
        simp only [capsFoldAux, capLetters, hb, Bool.false_eq_true, if_false, hnm,
          Option.bind_eq_bind, Option.none_bind]
        rfl
      | some nm =>
        by_cases hc : nm ∈ WATER_EDGE_CANCELERS
        · simp only [capsFoldAux, capLetters, hb, Bool.false_eq_true, if_false, hnm,
            Option.bind_eq_bind, Option.some_bind, if_pos hc, ih]
          cases hcl : capLetters m rest with
          | none => simp
          | some ls => simp
        · simp only [capsFoldAux, capLetters, hb, Bool.false_eq_true, if_false, hnm,
            Option.bind_eq_bind, Option.some_bind, if_neg hc, ih]
          cases hcl : capLetters m rest with
          | none => simp
          | some ls => simp

/-- The per-cell tile content (sprite name and out-of-bounds flag of every
tile the cell emits, caps first, then the main tile), independent of the
window origin and of the layer collection. Derived from `processCell` for the
window/full-map comparison. -/
def cellSprites (r : MapRenderer) (z_index : Nat) (x y : Int) :
    Option (List (String × Bool)) :=
  let out_of_bounds := x < 0 ∨ y < 0 ∨ (r.cols : Int) ≤ x ∨ (r.rows : Int) ≤ y
  if z_index = 0 ∧ out_of_bounds then some [(r.map.border, true)]
  else if out_of_bounds then some []
  else do
    let tile ← pyIdx3 r.map.layers z_index y x
    if tile = " " then some []
    else if r.render_water_edges = false then some []
    else if r.map.tilesGet tile = some "wtr" then do
      let neighbors ← r.get_neighbors x y z_index
      let water_edges ← edgeCodesAux r.map ((neighbors.take 4).zip ["n", "s", "e", "w"])
      let ls ← capLetters r.map ((neighbors.drop 4).zip ["a", "c", "d", "b"])
      some ((ls.map fun l => ("wtrc_" ++ l, false)) ++ [(waterName tile water_edges, false)])
    else some [(tile, false)]

/-- The cell transformer succeeds exactly when the cell's content does, and on
success it adds to the layer collection exactly the cell's content, placed at
the cell's pixel position relative to the given origin, up to permutation of
the flattened tile list. -/
theorem processCell_char (r : MapRenderer) (x_origin y_origin : Int) (z_index : Nat)
    (x y : Int) (d : DLayers) :
    (processCell r x_origin y_origin z_index x y d).isSome
      = (cellSprites r z_index x y).isSome ∧
    ∀ d', processCell r x_origin y_origin z_index x y d = some d' →
      ∃ sp, cellSprites r z_index x y = some sp ∧
        (allTiles d').Perm (allTiles d ++ sp.map fun p =>
          (⟨(x - x_origin) * TILE_SIZE, (y - y_origin) * TILE_SIZE,
            (z_index : Int), p.1, p.2⟩ : RenderTile)) := by
  by_cases hz0 : z_index = 0 ∧ (x < 0 ∨ y < 0 ∨ (r.cols : Int) ≤ x ∨ (r.rows : Int) ≤ y)
  · simp only [processCell, cellSprites, if_pos hz0]
    refine ⟨rfl, ?_⟩
    intro d' h
    obtain rfl := (Option.some.inj h).symm
    refine ⟨[(r.map.border, true)], rfl, ?_⟩
    obtain ⟨hz, _⟩ := hz0
    subst hz
    simpa using allTiles_dAppend d 0
      ⟨(x - x_origin) * TILE_SIZE, (y - y_origin) * TILE_SIZE, 0, r.map.border, true⟩
  · by_cases hoob : x < 0 ∨ y < 0 ∨ (r.cols : Int) ≤ x ∨ (r.rows : Int) ≤ y
    · simp only [processCell, cellSprites, if_neg hz0, if_pos hoob]
      refine ⟨rfl, ?_⟩
      intro d' h
      obtain rfl := (Option.some.inj h).symm
      exact ⟨[], rfl, by simp⟩
    · simp only [processCell, cellSprites, if_neg hz0, if_neg hoob, Option.bind_eq_bind]
      cases htile : pyIdx3 r.map.layers z_index y x with
      | none =>
        simp only [Option.none_bind]
        exact ⟨rfl, fun d' h => absurd h (by simp)⟩
      | some tile =>
        simp only [Option.some_bind]
        by_cases hsp : tile = " "
        · simp only [if_pos hsp]
          refine ⟨rfl, ?_⟩
          intro d' h
          obtain rfl := (Option.some.inj h).symm
          exact ⟨[], rfl, by simp⟩
        · simp only [if_neg hsp]
          by_cases hrwe : r.render_water_edges = false
          · simp only [if_pos hrwe]
            refine ⟨rfl, ?_⟩
            intro d' h
            obtain rfl := (Option.some.inj h).symm
            exact ⟨[], rfl, by simp⟩
          · simp only [if_neg hrwe]
            by_cases hwtr : r.map.tilesGet tile = some "wtr"
            · simp only [if_pos hwtr]
              cases hns : r.get_neighbors x y (z_index : Int) with
              | none =>
                simp only [Option.none_bind]
                exact ⟨rfl, fun d' h => absurd h (by simp)⟩
              | some ns =>
                simp only [Option.some_bind]
                cases hec : edgeCodesAux r.map ((ns.take 4).zip ["n", "s", "e", "w"]) with
                | none =>
                  simp only [Option.none_bind]
                  exact ⟨rfl, fun d' h => absurd h (by simp)⟩
                | some codes =>
                  simp only [Option.some_bind]
                  cases hcl : capLetters r.map ((ns.drop 4).zip ["a", "c", "d", "b"]) with
                  | none =>
                    have hfail : capsFoldAux r.map ((x - x_origin) * TILE_SIZE)
                        ((y - y_origin) * TILE_SIZE) z_index
                        ((ns.drop 4).zip ["a", "c", "d", "b"]) d = none := by
                      have := capsFoldAux_isSome r.map ((x - x_origin) * TILE_SIZE)
                        ((y - y_origin) * TILE_SIZE) z_index
                        ((ns.drop 4).zip ["a", "c", "d", "b"]) d
                      rw [hcl] at this
                      exact Option.not_isSome_iff_eq_none.1 (by rw [this]; simp)
                    simp only [hfail, Option.none_bind]
                    exact ⟨rfl, fun d' h => absurd h (by simp)⟩
                  | some ls =>
                    have hsucc : (capsFoldAux r.map ((x - x_origin) * TILE_SIZE)
                        ((y - y_origin) * TILE_SIZE) z_index
                        ((ns.drop 4).zip ["a", "c", "d", "b"]) d).isSome = true := by
                      rw [capsFoldAux_isSome, hcl]
                      rfl
                    obtain ⟨d1, hd1⟩ := Option.isSome_iff_exists.1 hsucc
                    simp only [hd1, Option.some_bind]
                    refine ⟨rfl, ?_⟩
                    intro d' h
                    obtain rfl := (Option.some.inj h).symm
                    refine ⟨(ls.map fun l => ("wtrc_" ++ l, false)) ++
                      [(waterName tile codes, false)], rfl, ?_⟩
                    obtain ⟨ls', hls', hperm⟩ := capsFoldAux_perm r.map
                      ((x - x_origin) * TILE_SIZE) ((y - y_origin) * TILE_SIZE) z_index
                      ((ns.drop 4).zip ["a", "c", "d", "b"]) d d1 hd1
                    obtain rfl : ls' = ls := Option.some.inj (hls' ▸ hcl)
                    refine (allTiles_dAppend d1 z_index _).trans ?_
                    refine (List.Perm.append_right _ hperm).trans ?_
                    rw [List.append_assoc, List.map_append, List.map_map]
                    rfl
            · simp only [if_neg hwtr]
              refine ⟨rfl, ?_⟩
              intro d' h
              obtain rfl := (Option.some.inj h).symm
              refine ⟨[(tile, false)], rfl, ?_⟩
              simpa using allTiles_dAppend d z_index
                ⟨(x - x_origin) * TILE_SIZE, (y - y_origin) * TILE_SIZE,
                 (z_index : Int), tile, false⟩

/-- C9: whenever the per-cell loop body processes a cell in full-map mode
(origin `(0, 0)`), processing the same cell and z-level with any window origin
also succeeds, adds exactly the same tile content (same resolved sprite names,
edge suffixes, emitted caps, and out-of-bounds flags), and every emitted tile's
pixel position differs from the full-map one by exactly the window-origin
offset times the tile size. -/
theorem C9_window_full_agree (r : MapRenderer) (x_origin y_origin : Int) (z_index : Nat)
    (x y : Int) (d1 d1' : DLayers)
    (h : processCell r 0 0 z_index x y d1 = some d1') :
    ∃ em, (allTiles d1').Perm (allTiles d1 ++ em) ∧
      ∀ d2 : DLayers, ∃ d2', processCell r x_origin y_origin z_index x y d2 = some d2' ∧
        (allTiles d2').Perm (allTiles d2 ++ em.map fun t =>
          (⟨t.x - x_origin * TILE_SIZE, t.y - y_origin * TILE_SIZE, t.z, t.tile,
            t.out_of_bounds⟩ : RenderTile)) := by
  obtain ⟨sp, hsp, hperm1⟩ := (processCell_char r 0 0 z_index x y d1).2 d1' h
  refine ⟨sp.map fun p => ⟨(x - 0) * TILE_SIZE, (y - 0) * TILE_SIZE,
    (z_index : Int), p.1, p.2⟩, hperm1, ?_⟩
  have hmaps : (sp.map fun p => (⟨(x - 0) * TILE_SIZE, (y - 0) * TILE_SIZE,
        (z_index : Int), p.1, p.2⟩ : RenderTile)).map
        (fun t => (⟨t.x - x_origin * TILE_SIZE, t.y - y_origin * TILE_SIZE, t.z, t.tile,
          t.out_of_bounds⟩ : RenderTile)) =
      sp.map fun p => ⟨(x - x_origin) * TILE_SIZE, (y - y_origin) * TILE_SIZE,
        (z_index : Int), p.1, p.2⟩ := by
    rw [List.map_map]
    refine List.map_congr_left ?_
    intro p _
    simp only [Function.comp_apply, RenderTile.mk.injEq, and_true, true_and]
    exact ⟨by ring, by ring⟩
  intro d2
  have hs2 : (processCell r x_origin y_origin z_index x y d2).isSome = true := by
    rw [(processCell_char r x_origin y_origin z_index x y d2).1, hsp]
    rfl
  obtain ⟨d2', hd2'⟩ := Option.isSome_iff_exists.1 hs2
  obtain ⟨sp2, hsp2, hperm2⟩ :=
    (processCell_char r x_origin y_origin z_index x y d2).2 d2' hd2'
  obtain rfl : sp2 = sp := Option.some.inj (hsp2.symm.trans hsp)
  refine ⟨d2', hd2', ?_⟩
  rw [hmaps]
  exact hperm2

/-- C9 witness: the water cell of the 1×2 map processed in full-map mode and
with window origin `(2, 3)` agree on content up to the constant pixel
offset. -/
theorem C9_window_full_agree_witness :
    ∃ em, (allTiles [(0, [⟨0, 0, 0, "wtr_e", false⟩])]).Perm
        (allTiles ([] : DLayers) ++ em) ∧
      ∀ d2 : DLayers, ∃ d2', processCell ⟨mapC1, 1, 2, 9, 4, 0, 0, true⟩ 2 3 0 0 0 d2 =
          some d2' ∧
        (allTiles d2').Perm (allTiles d2 ++ em.map fun t =>
          (⟨t.x - 2 * TILE_SIZE, t.y - 3 * TILE_SIZE, t.z, t.tile,
            t.out_of_bounds⟩ : RenderTile)) :=
  C9_window_full_agree ⟨mapC1, 1, 2, 9, 4, 0, 0, true⟩ 2 3 0 0 0 []
    [(0, [⟨0, 0, 0, "wtr_e", false⟩])] (by decide)
